import Mathlib

/-!
Shallow embedding of the MORSEL post-processing pipeline
(src/pymorsel/process_segmentation.py and src/pymorsel/apply_bpe_to_segmentation.py).

Strings are modelled as lists of characters; a segment ("unit") is the raw
Python string including its one-character operator marker, exactly as the
source keeps it.  Python exceptions are modelled by an error type: every
fallible function returns an Except value whose error constructor records
the kind of Python exception the source would raise at that point.
-/

namespace Morsel

/-- A token or segment: the Python string, as a list of characters. -/
abbrev Tok := List Char

/-- Shorthand turning a string literal into the character-list model. -/
def strT (s : String) : List Char := s.toList

/-- Kinds of Python exceptions the two source files can raise. -/
inductive PyErr where
  | indexError
  | assertError
  | valueError
  | notImplementedError
  | nameError
  deriving DecidableEq, Repr

/-! ## process_segmentation.py -/

/-- Python str.split on a single space: empty chunks are kept and the empty
string splits to one empty chunk. -/
def splitSpaces : List Char → List Tok
  | [] => [[]]
  | c :: rest =>
    if c = ' ' then [] :: splitSpaces rest
    else
      match splitSpaces rest with
      | [] => [[c]]
      | t :: ts => (c :: t) :: ts

/-- join_segmentation: concatenate every unit's text with its one-character
marker dropped (source line 186). -/
def join_segmentation (units : List Tok) : List Char :=
  (units.map (fun u => u.drop 1)).flatten

/-- The while loop of _end_delete (source lines 170-183), acting on the
reversed segment list so that the Python list tail is the head here.
Python raises inside the not-segments branch while formatting the message
with a name that is not in scope, hence nameError. -/
def endDeleteLoopRev : Nat → List Tok → Except PyErr (List Tok)
  | toDelete, [] => if toDelete = 0 then .ok [] else .error .nameError
  | toDelete, last :: restRev =>
    if toDelete = 0 then .ok (last :: restRev)
    else
      let lastSegmentLen := last.length - 1
      if toDelete ≥ lastSegmentLen then
        endDeleteLoopRev (toDelete - lastSegmentLen) restRev
      else .ok (last.take (last.length - toDelete) :: restRev)

/-- _end_delete (source lines 155-183).  The easy case drops the deleted
text from the final segment; Python slicing with -0 yields the empty
string, which the zero-length branch mirrors.  The hard case walks
backward by length alone. -/
def end_delete (segmentText : List Char) (segments : List Tok) :
    Except PyErr (List Tok) :=
  match segments.getLast? with
  | none => .error .indexError
  | some last =>
    if last.length > segmentText.length then
      if segmentText.isSuffixOf last then
        .ok (segments.dropLast ++
          [if segmentText.length = 0 then [] else
            last.take (last.length - segmentText.length)])
      else .error .assertError
    else
      match endDeleteLoopRev segmentText.length segments.reverse with
      | .ok revSegs => .ok revSegs.reverse
      | .error e => .error e

/-- The loop body of parse_segmentation (source lines 95-148).  The fuel
argument counts remaining iterations; each call consumes exactly one source
token, so fuel equal to the source length never runs out.  The caret
operator rewrites the next source token in place, modelled by passing the
rewritten token to the recursive call. -/
def parseLoopF : Nat → List Tok → List Tok → Except PyErr (List Tok)
  | _, [], segments => .ok segments
  | fuel + 1, segment :: rest, segments =>
    match segment with
    | [] => .error .indexError
    | op :: segmentText =>
      if op = '_' then parseLoopF fuel rest (segments ++ [segment])
      else if op = '+' then parseLoopF fuel rest (segments ++ [segment])
      else if op = '$' then
        if hseg : segments = [] then .error .assertError
        else
          match segmentText with
          | [] => .error .indexError
          | innerOp :: innerText =>
            if innerOp = '-' then
              match end_delete innerText segments with
              | .error e => .error e
              | .ok segments2 => parseLoopF fuel rest segments2
            else if innerOp = '+' then
              parseLoopF fuel rest
                (segments.dropLast ++ [segments.getLast hseg ++ innerText])
            else parseLoopF fuel rest segments
      else if op = '^' then
        match rest with
        | [] => .error .assertError
        | sourceSegment :: rest2 =>
          match segmentText with
          | [] => .error .indexError
          | innerOp :: innerText =>
            match sourceSegment with
            | [] => .error .assertError
            | ssOp :: ssText =>
              if ssOp = '_' ∨ ssOp = '+' then
                if innerOp = '-' then
                  if innerText.length < ssText.length then
                    if innerText.isPrefixOf ssText then
                      parseLoopF fuel
                        ((ssOp :: ssText.drop innerText.length) :: rest2)
                        segments
                    else .error .assertError
                  else .error .notImplementedError
                else if innerOp = '+' then
                  match ssText with
                  | [] => .error .indexError
                  | c :: _ =>
                    parseLoopF fuel ((ssOp :: c :: ssText) :: rest2) segments
                else parseLoopF fuel (sourceSegment :: rest2) segments
              else .error .assertError
      else .error .valueError
  | 0, _ :: _, _ => .error .indexError

/-- parse_segmentation (source lines 91-152), including the final
non-emptiness assertion. -/
def parse_segmentation (s : List Char) : Except PyErr (List Tok) :=
  let source := splitSpaces s
  match parseLoopF source.length source [] with
  | .ok segments =>
    if segments = [] then .error .assertError else .ok segments
  | .error e => .error e

/-- Count of consecutive hyphens at the front of a character list. -/
def countLeadingHyphens : List Char → Nat
  | [] => 0
  | c :: rest => if c = '-' then countLeadingHyphens rest + 1 else 0

/-- _add_hyphens (source lines 224-232): append one root-marked hyphen unit
per consecutive surface hyphen and return the advanced index.  Callers
establish that the word has a hyphen at the given index. -/
def add_hyphens (word : List Char) (idx : Nat) : List Tok × Nat :=
  let k := countLeadingHyphens (word.drop idx)
  (List.replicate k ['_', '-'], idx + k)

/-- The for loop of correct_segmentation (source lines 197-208).  Matching
against the surface word uses Python startswith-with-offset semantics;
indexing the word out of range is an IndexError. -/
def correctLoop (word : List Char) :
    List Tok → Nat → List Tok → Except PyErr (List Tok × Nat)
  | [], idx, newUnits => .ok (newUnits, idx)
  | unit :: rest, idx, newUnits =>
    let unitText := unit.drop 1
    if unitText.isPrefixOf (word.drop idx) then
      correctLoop word rest (idx + unitText.length) (newUnits ++ [unit])
    else
      match word.get? idx with
      | none => .error .indexError
      | some ch =>
        if ch = '-' then
          let hk := add_hyphens word idx
          correctLoop word rest (hk.2 + unitText.length)
            (newUnits ++ hk.1 ++ [unit])
        else .error .valueError

/-- correct_segmentation (source lines 191-221), including the trailing
hyphen handling and final length re-check. -/
def correct_segmentation (units : List Tok) (word : List Char) :
    Except PyErr (List Tok) :=
  match correctLoop word units 0 [] with
  | .error e => .error e
  | .ok (newUnits, idx) =>
    if h : idx < word.length then
      let r := if word.get ⟨idx, h⟩ = '-' then add_hyphens word idx
               else ([], idx)
      if r.2 = word.length then .ok (newUnits ++ r.1)
      else .error .valueError
    else .ok newUnits

/-- The per-word reconciliation step of process_segmentation (source lines
48-56): correct only on mismatch, then assert that the corrected join
equals the original word. -/
def reconcile_word (segUnits : List Tok) (word : List Char) :
    Except PyErr (List Tok) :=
  if join_segmentation segUnits = word then .ok segUnits
  else
    match correct_segmentation segUnits word with
    | .error e => .error e
    | .ok units2 =>
      if join_segmentation units2 = word then .ok units2
      else .error .assertError

/-! ## apply_bpe_to_segmentation.py -/

/-- _can_concatenate_right (source line 93): the unit ends with the
reserved boundary marker or with the two-character continuation marker. -/
def can_concatenate_right (unit : Tok) : Bool :=
  decide (['⧺'] <:+ unit) || decide (['@', '@'] <:+ unit)

/-- One iteration of the first loop of _apply_bpe_to_stems (source lines
64-79): the replacement units a single input unit contributes, paired with
the missing-unit diagnostics it emits. -/
def processUnit (stemUnits : Tok → Option (List Tok)) (unit : Tok) :
    Except PyErr (List Tok × List Tok) :=
  if unit.length ≤ 1 then .error .assertError
  else
    match unit with
    | [] => .error .assertError
    | c :: tail =>
      if c = '_' then
        match stemUnits unit with
        | some us => .ok (us, [])
        | none => .ok ([tail], [unit])
      else if c = '+' then .ok ([('⧺' :: tail)], [])
      else if c = '⧺' then .ok ([tail ++ ['⧺']], [])
      else .error .valueError

/-- The first loop of _apply_bpe_to_stems over all units, collecting the
produced units and the missing-unit diagnostics (printed in the source,
returned as a value here). -/
def firstPass (stemUnits : Tok → Option (List Tok)) :
    List Tok → Except PyErr (List Tok × List Tok)
  | [] => .ok ([], [])
  | unit :: rest =>
    match processUnit stemUnits unit with
    | .error e => .error e
    | .ok (us, ms) =>
      match firstPass stemUnits rest with
      | .error e => .error e
      | .ok (restUnits, restMissing) => .ok (us ++ restUnits, ms ++ restMissing)

/-- The final pass of _apply_bpe_to_stems (source lines 83-88): append the
continuation marker to a unit that cannot concatenate rightward when the
following unit does not begin with the boundary marker.  The last unit is
never touched (the index bound excludes it), and appending to a unit does
not change whether the next decision sees its leading character. -/
def addContinuation : List Tok → List Tok
  | [] => []
  | [u] => [u]
  | u :: v :: rest =>
    (if can_concatenate_right u = false ∧ v.head? ≠ some '⧺'
     then u ++ ['@', '@'] else u) :: addContinuation (v :: rest)

/-- _apply_bpe_to_stems (source lines 59-90): first pass then final pass,
also returning the missing-unit diagnostics. -/
def apply_bpe_to_stems (units : List Tok)
    (stemUnits : Tok → Option (List Tok)) :
    Except PyErr (List Tok × List Tok) :=
  match firstPass stemUnits units with
  | .error e => .error e
  | .ok (newUnits, missing) => .ok (addContinuation newUnits, missing)

/-- Python str.replace with a two-character pattern and empty replacement:
scan left to right, removing non-overlapping occurrences. -/
def remove2 (p1 p2 : Char) : List Char → List Char
  | c1 :: c2 :: rest =>
    if c1 = p1 ∧ c2 = p2 then remove2 p1 p2 rest
    else c1 :: remove2 p1 p2 (c2 :: rest)
  | s => s

/-- Python str.replace with a three-character pattern and empty
replacement. -/
def remove3 (p1 p2 p3 : Char) : List Char → List Char
  | c1 :: c2 :: c3 :: rest =>
    if c1 = p1 ∧ c2 = p2 ∧ c3 = p3 then remove3 p1 p2 p3 rest
    else c1 :: remove3 p1 p2 p3 (c2 :: c3 :: rest)
  | s => s

/-- Join units with single spaces, as the source's " ".join. -/
def joinWithSpaces (units : List Tok) : List Char :=
  (List.intersperse [' '] units).flatten

/-- The marker-stripping of _check_final_segmentation (source lines 40-45):
the three replace calls, applied in the source's order. -/
def stripMarkers (s : List Char) : List Char :=
  remove2 ' ' '⧺' (remove2 '⧺' ' ' (remove3 '@' '@' ' ' s))

/-- _check_final_segmentation (source lines 39-48): assert that the joined,
marker-stripped units equal the word. -/
def check_final_segmentation (units : List Tok) (word : List Char) :
    Except PyErr Unit :=
  if stripMarkers (joinWithSpaces units) = word then .ok ()
  else .error .assertError

/-- Follows the spec's words in section 4.5 (not the source): strip the
continuation and boundary markers from one unit, at its edges. -/
def specStripUnit (u : Tok) : Tok :=
  let u1 := if u.head? = some '⧺' then u.drop 1 else u
  if ['@', '@'] <:+ u1 then u1.dropLast.dropLast
  else if ['⧺'] <:+ u1 then u1.dropLast
  else u1

/-- Follows the spec's words: strip every unit and concatenate. -/
def specStripConcat (units : List Tok) : List Char :=
  (units.map specStripUnit).flatten

/-- Two adjacent final units are connected when the left one can
concatenate rightward or the right one begins with the boundary marker. -/
def unitsConnected (u v : Tok) : Prop :=
  can_concatenate_right u = true ∨ v.head? = some '⧺'

/-! ## Theorems -/

/-- C9: decoding the annotation of the multi-segment end-deletion scenario
yields exactly the root segment with text gravi and the suffix segment with
text s, the second end-deletion having consumed the whole appended ate
segment and one further character of the root. -/
theorem decode_gravity_scenario :
    parse_segmentation (strT ("_gravity $-y +ate $-tate +s")) =
      .ok [strT ("_gravi"), strT ("+s")] := rfl

/-- C6: at the repository's own test input, an end-subtraction that removes
exactly the whole text of the preceding segment leaves behind a segment
consisting of a bare marker with empty text, contradicting the test's
expected value and the spec's non-empty-text invariant. -/
theorem exact_subtraction_leaves_empty_segment :
    parse_segmentation (strT ("_alb +a $-a +an")) =
      .ok [strT ("_alb"), ['+'], strT ("+an")] ∧
    join_segmentation [['+']] = [] := ⟨rfl, rfl⟩

/-- C2 (amended): a caret-plus accommodation rewrites the following root or
affix segment by duplicating that segment's own first character, ignoring
the operator's inner text; when the inner text is exactly that first
character, as in the doubling accommodations the operator encodes, this
coincides with prepending the inner text. -/
theorem caret_plus_doubles_first_char (n : Nat) (x : List Char) (o c : Char)
    (t : List Char) (rest segs : List Tok) (ho : o = '_' ∨ o = '+') :
    parseLoopF (n + 1) (('^' :: '+' :: x) :: (o :: c :: t) :: rest) segs =
      parseLoopF n ((o :: c :: c :: t) :: rest) segs := by
  rcases ho with rfl | rfl <;> rfl

/-- Witness for C2 (amended): the caret-plus step on a concrete state. -/
theorem caret_plus_doubles_first_char_witness :
    parseLoopF 2 [['^', '+', 'q'], ['_', 'p', 'i', 'n']] [['+', 'u', 'n']] =
      parseLoopF 1 [['_', 'p', 'p', 'i', 'n']] [['+', 'u', 'n']] :=
  caret_plus_doubles_first_char 1 ['q'] '_' 'p' ['i', 'n'] []
    [['+', 'u', 'n']] (Or.inl rfl)

/-- C2 counterexample: decoding the token caret-plus-q before the root pin
doubles the p and ignores the inner text q, so the following segment does
not become the inner text followed by its old text. -/
theorem caret_plus_ignores_inner_text :
    parse_segmentation (strT ("+un ^+q _pin")) =
      .ok [strT ("+un"), strT ("_ppin")] ∧
    strT ("_ppin") ≠ strT ("_qpin") := ⟨rfl, by decide⟩

/-- Helper: in the easy case of _end_delete, a deletion text shorter than
the whole preceding segment that is not a suffix of it fails the endswith
assertion. -/
theorem end_delete_easy_mismatch (t : List Char) (l : Tok) (pre : List Tok)
    (hlen : t.length < l.length) (hsuf : t.isSuffixOf l = false) :
    end_delete t (pre ++ [l]) = .error .assertError := by
  unfold end_delete
  rw [List.getLast?_concat]
  simp [hlen, hsuf]

/-- C3 (amended): a dollar-minus subtraction whose text mismatches is
rejected only in the single-segment case: when the deletion text is
shorter than the whole preceding segment and is not a suffix of it, the
decoder raises the endswith assertion error.  (When the deletion is long
enough to span several segments, the decoder deletes by length alone and
checks nothing, as the counterexample shows.) -/
theorem end_delete_mismatch_within_last (n : Nat) (t : List Char) (l : Tok)
    (pre rest : List Tok) (hlen : t.length < l.length)
    (hsuf : t.isSuffixOf l = false) :
    parseLoopF (n + 1) (('$' :: '-' :: t) :: rest) (pre ++ [l]) =
      .error .assertError := by
  have hne : pre ++ [l] ≠ [] := by simp
  have hd := end_delete_easy_mismatch t l pre hlen hsuf
  simp [parseLoopF, hne, hd]

/-- Witness for C3 (amended): a concrete single-segment mismatch. -/
theorem end_delete_mismatch_within_last_witness :
    parseLoopF 1 [['$', '-', 'x']] [['_', 'a', 'b', 'c']] =
      .error .assertError :=
  end_delete_mismatch_within_last 0 ['x'] ['_', 'a', 'b', 'c'] [] []
    (by decide) (by decide)

/-- C3 counterexample: the deletion text xy is not a tail of the
concatenated preceding texts abcd, yet decoding succeeds because the
multi-segment branch of _end_delete deletes by length without any text
check. -/
theorem multi_segment_delete_unchecked :
    parse_segmentation (strT ("_abc +d $-xy")) = .ok [strT ("_ab")] ∧
    (strT ("xy")).isSuffixOf
      (join_segmentation [strT ("_abc"), strT ("+d")]) = false := ⟨rfl, rfl⟩

/-- C4 (amended): a token whose outer operator character is none of the
four recognized ones makes decoding fail with the unknown-operator error;
but a dollar token whose inner operator is neither minus nor plus is
silently skipped, leaving the segments unchanged, and likewise a caret
token with an unrecognized inner operator is silently skipped once its
target assertions pass, leaving both the segments and the following
source token unchanged. -/
theorem unknown_operator_fails_inner_ops_ignored :
    (∀ (n : Nat) (c : Char) (t : List Char) (rest segs : List Tok),
        c ≠ '_' → c ≠ '+' → c ≠ '$' → c ≠ '^' →
        parseLoopF (n + 1) ((c :: t) :: rest) segs = .error .valueError) ∧
    (∀ (n : Nat) (iop : Char) (t : List Char) (rest segs : List Tok),
        segs ≠ [] → iop ≠ '-' → iop ≠ '+' →
        parseLoopF (n + 1) (('$' :: iop :: t) :: rest) segs =
          parseLoopF n rest segs) ∧
    (∀ (n : Nat) (iop : Char) (t : List Char) (o : Char) (s : List Char)
        (rest segs : List Tok),
        (o = '_' ∨ o = '+') → iop ≠ '-' → iop ≠ '+' →
        parseLoopF (n + 1) (('^' :: iop :: t) :: (o :: s) :: rest) segs =
          parseLoopF n ((o :: s) :: rest) segs) := by
  refine ⟨?_, ?_, ?_⟩
  · intro n c t rest segs h1 h2 h3 h4
    simp [parseLoopF, h1, h2, h3, h4]
  · intro n iop t rest segs hseg h1 h2
    simp [parseLoopF, hseg, h1, h2]
  · intro n iop t o s rest segs ho h1 h2
    rcases ho with rfl | rfl <;> simp [parseLoopF, h1, h2]

/-- Witness for C4 (amended): all three conjuncts at concrete inputs. -/
theorem unknown_operator_fails_inner_ops_ignored_witness :
    parseLoopF 1 [['z', 'a']] [] = .error .valueError ∧
    parseLoopF 1 [['$', 'x', 'c']] [['_', 'a', 'b']] =
      parseLoopF 0 [] [['_', 'a', 'b']] ∧
    parseLoopF 2 [['^', 'x', 'c'], ['+', 'd']] [['_', 'a', 'b']] =
      parseLoopF 1 [['+', 'd']] [['_', 'a', 'b']] :=
  ⟨unknown_operator_fails_inner_ops_ignored.1 0 'z' ['a'] [] []
      (by decide) (by decide) (by decide) (by decide),
   unknown_operator_fails_inner_ops_ignored.2.1 0 'x' ['c'] [] [['_', 'a', 'b']]
      (by decide) (by decide) (by decide),
   unknown_operator_fails_inner_ops_ignored.2.2 1 'x' ['c'] '+' ['d'] []
      [['_', 'a', 'b']] (Or.inr rfl) (by decide) (by decide)⟩

/-- C4 counterexample: the tokens dollar-x-c and caret-x-c carry an inner
operator that is neither minus nor plus, and decoding neither fails nor
records them: both tokens are silently ignored and decoding succeeds. -/
theorem inner_operator_silently_ignored :
    parse_segmentation (strT ("_ab $xc")) = .ok [strT ("_ab")] ∧
    parse_segmentation (strT ("_ab ^xc +d")) =
      .ok [strT ("_ab"), strT ("+d")] := ⟨rfl, rfl⟩

/-- C8: a caret-minus start-accommodation whose deletion text is at least
as long as the following segment's text raises the not-implemented
unsupported-deletion error. -/
theorem caret_minus_too_long (n : Nat) (t : List Char) (o : Char)
    (s : List Char) (rest segs : List Tok) (ho : o = '_' ∨ o = '+')
    (hlen : ¬ t.length < s.length) :
    parseLoopF (n + 1) (('^' :: '-' :: t) :: (o :: s) :: rest) segs =
      .error .notImplementedError := by
  rcases ho with rfl | rfl <;> simp [parseLoopF, hlen]

/-- Witness for C8: the spec's concrete scenario raises the
unsupported-deletion error. -/
theorem caret_minus_too_long_witness :
    parse_segmentation (strT ("+un ^-ab +a _bdone")) =
      .error .notImplementedError := by
  have h := caret_minus_too_long 2 ['a', 'b'] '+' ['a']
    [['_', 'b', 'd', 'o', 'n', 'e']] [['+', 'u', 'n']] (Or.inr rfl) (by decide)
  exact h

/-- C1 (amended): correct_segmentation alone does not re-match a segment
after consuming hyphens, so its plain return does not guarantee the
post-condition; the reconciliation step as a whole does: whenever the
per-word correction-plus-assertion of process_segmentation returns
segments, their concatenated texts equal the surface word exactly. -/
theorem reconcile_word_ok_join (u : List Tok) (w : List Char)
    (u2 : List Tok) (h : reconcile_word u w = .ok u2) :
    join_segmentation u2 = w := by
  unfold reconcile_word at h
  by_cases hj : join_segmentation u = w
  · rw [if_pos hj] at h
    cases h
    exact hj
  · rw [if_neg hj] at h
    rcases hc : correct_segmentation u w with e | units2 <;> rw [hc] at h <;>
      dsimp only at h
    · cases h
    · by_cases hj2 : join_segmentation units2 = w
      · rw [if_pos hj2] at h
        cases h
        exact hj2
      · rw [if_neg hj2] at h
        cases h

/-- Witness for C1 (amended): a hyphen-elided compound reconciles to the
surface word. -/
theorem reconcile_word_ok_join_witness :
    join_segmentation [['_', 'f', 'o', 'o'], ['_', '-'], ['_', 'b', 'a', 'r']] =
      ['f', 'o', 'o', '-', 'b', 'a', 'r'] :=
  reconcile_word_ok_join [['_', 'f', 'o', 'o'], ['_', 'b', 'a', 'r']]
    ['f', 'o', 'o', '-', 'b', 'a', 'r']
    [['_', 'f', 'o', 'o'], ['_', '-'], ['_', 'b', 'a', 'r']] rfl

/-- C1 counterexample: correct_segmentation returns without raising on a
unit list and word whose concatenation does not match: after consuming the
leading hyphen it appends the unit without re-matching it against the word
at the new offset. -/
theorem correct_segmentation_no_postcondition :
    correct_segmentation [strT ("_ab")] (strT ("-xy")) =
      .ok [strT ("_-"), strT ("_ab")] ∧
    join_segmentation [strT ("_-"), strT ("_ab")] ≠ strT ("-xy") :=
  ⟨rfl, by decide⟩

/-- C7 (amended): the final consistency check passes exactly when the
space-joined units, after removing each marker together with its adjacent
space in the source's order, equal the surface word.  Per-unit marker
stripping is a different condition: it agrees only when adjacent units are
marker-connected. -/
theorem check_final_iff (units : List Tok) (word : List Char) :
    check_final_segmentation units word = .ok () ↔
      stripMarkers (joinWithSpaces units) = word := by
  unfold check_final_segmentation
  split <;> simp_all

/-- C7 counterexample: two adjacent units carrying no markers at all whose
per-unit-stripped concatenation equals the word, yet the verifier raises,
because the space between units is removed only together with a marker. -/
theorem check_final_vs_spec_strip :
    specStripConcat [strT ("know"), strT ("n")] = strT ("known") ∧
    check_final_segmentation [strT ("know"), strT ("n")] (strT ("known")) =
      .error .assertError := ⟨rfl, rfl⟩

/-- Helper: appending the continuation marker makes a unit able to
concatenate rightward. -/
theorem can_concatenate_right_append_marker (u : Tok) :
    can_concatenate_right (u ++ ['@', '@']) = true := by
  simp only [can_concatenate_right, Bool.or_eq_true, decide_eq_true_eq]
  exact Or.inr (List.suffix_append u ['@', '@'])

/-- Helper: the head of the final pass's output on a nonempty list is the
original head, possibly with the continuation marker appended. -/
theorem addContinuation_head (v : Tok) (rest : List Tok) :
    (addContinuation (v :: rest)).head? = some v ∨
    (addContinuation (v :: rest)).head? = some (v ++ ['@', '@']) := by
  cases rest with
  | nil => exact Or.inl rfl
  | cons w rs =>
    by_cases h : can_concatenate_right v = false ∧ w.head? ≠ some '⧺'
    · right
      simp [addContinuation, h]
    · left
      simp [addContinuation, h]

/-- Helper: the final pass never returns an empty list from a nonempty
one. -/
theorem addContinuation_ne_nil (v : Tok) (rest : List Tok) :
    addContinuation (v :: rest) ≠ [] := by
  cases rs : rest <;> simp [addContinuation]

/-- Helper: the unit the final pass emits for a non-final position is
connected to whichever form the next emitted unit takes. -/
theorem connected_ite (u v y : Tok) (hy : y = v ∨ y = v ++ ['@', '@']) :
    unitsConnected
      (if can_concatenate_right u = false ∧ v.head? ≠ some '⧺'
       then u ++ ['@', '@'] else u) y := by
  by_cases hcond : can_concatenate_right u = false ∧ v.head? ≠ some '⧺'
  · rw [if_pos hcond]
    exact Or.inl (can_concatenate_right_append_marker u)
  · rw [if_neg hcond]
    cases hcc : can_concatenate_right u with
    | true => exact Or.inl hcc
    | false =>
      have hv : v.head? = some '⧺' := by
        by_contra hne
        exact hcond ⟨hcc, hne⟩
      right
      rcases hy with rfl | rfl
      · exact hv
      · cases v with
        | nil => simp at hv
        | cons a tl =>
          simp only [List.head?_cons, Option.some.injEq] at hv
          simp [hv]

/-- Helper: every adjacent pair of units in the final pass's output is
connected. -/
theorem chain'_addContinuation (l : List Tok) :
    List.Chain' unitsConnected (addContinuation l) := by
  induction l with
  | nil => simp [addContinuation]
  | cons u rest ih =>
    cases rest with
    | nil => simp [addContinuation]
    | cons v rs =>
      rw [addContinuation, List.chain'_cons']
      refine ⟨fun y hy => ?_, ih⟩
      rcases addContinuation_head v rs with hh | hh <;> rw [hh] at hy <;>
          simp only [Option.mem_def, Option.some.injEq] at hy <;> subst hy
      · exact connected_ite u v _ (Or.inl rfl)
      · exact connected_ite u v _ (Or.inr rfl)

/-- Helper: the final pass never modifies the last unit. -/
theorem addContinuation_getLast (l : List Tok) :
    (addContinuation l).getLast? = l.getLast? := by
  induction l with
  | nil => rfl
  | cons u rest ih =>
    cases rest with
    | nil => rfl
    | cons v rs =>
      rw [addContinuation]
      rcases hA : addContinuation (v :: rs) with _ | ⟨a, l2⟩
      · exact absurd hA (addContinuation_ne_nil v rs)
      · rw [List.getLast?_cons_cons, ← hA, ih, List.getLast?_cons_cons]

/-- C5 (amended): in every Final Token produced by the Subword Merger, each
adjacent pair of units is connected: the left unit ends with the
continuation marker or the boundary marker, or the right unit begins with
the boundary marker.  The output is the final pass of the first-pass
units, and the final pass leaves the last unit untouched, so it never
appends a continuation marker to the final unit. -/
theorem apply_bpe_units_connected (units : List Tok)
    (tbl : Tok → Option (List Tok)) (out missing : List Tok)
    (h : apply_bpe_to_stems units tbl = .ok (out, missing)) :
    List.Chain' unitsConnected out ∧
    ∃ pre, firstPass tbl units = .ok (pre, missing) ∧
      out = addContinuation pre ∧ out.getLast? = pre.getLast? := by
  unfold apply_bpe_to_stems at h
  rcases hfp : firstPass tbl units with e | ⟨nu, m⟩ <;> rw [hfp] at h <;>
    dsimp only at h
  · cases h
  · cases h
    exact ⟨chain'_addContinuation nu, nu, rfl, rfl, addContinuation_getLast nu⟩

/-- Witness for C5 (amended): the unknowns scenario. -/
theorem apply_bpe_units_connected_witness :
    List.Chain' unitsConnected
      [['k', 'n', 'o', 'w', '@', '@'], ['n'], ['⧺', 's']] ∧
    ∃ pre,
      firstPass
        (fun u => if u = ['_', 'k', 'n', 'o', 'w', 'n']
          then some [['k', 'n', 'o', 'w', '@', '@'], ['n']] else none)
        [['_', 'k', 'n', 'o', 'w', 'n'], ['+', 's']] = .ok (pre, []) ∧
      [['k', 'n', 'o', 'w', '@', '@'], ['n'], ['⧺', 's']] =
        addContinuation pre ∧
      ([['k', 'n', 'o', 'w', '@', '@'], ['n'], ['⧺', 's']] :
        List Tok).getLast? = pre.getLast? :=
  apply_bpe_units_connected [['_', 'k', 'n', 'o', 'w', 'n'], ['+', 's']]
    (fun u => if u = ['_', 'k', 'n', 'o', 'w', 'n']
      then some [['k', 'n', 'o', 'w', '@', '@'], ['n']] else none)
    [['k', 'n', 'o', 'w', '@', '@'], ['n'], ['⧺', 's']] [] rfl

/-- C5 counterexample: merging the root known with its two subword units
and the suffix s yields a Final Token whose middle, non-final unit n
carries no trailing marker at all, so it is not the case that exactly all
non-final units carry a trailing continuation marker. -/
theorem nonfinal_unit_without_marker :
    apply_bpe_to_stems [strT ("_known"), strT ("+s")]
      (fun u => if u = strT ("_known")
        then some [strT ("know@@"), strT ("n")] else none) =
      .ok ([strT ("know@@"), strT ("n"), strT ("⧺s")], []) ∧
    can_concatenate_right (strT ("n")) = false := ⟨rfl, rfl⟩

/-- Helper: the first loop of _apply_bpe_to_stems distributes over list
append when both halves succeed. -/
theorem firstPass_append (tbl : Tok → Option (List Tok)) (a b : List Tok)
    (ua ma ub mb : List Tok) (ha : firstPass tbl a = .ok (ua, ma))
    (hb : firstPass tbl b = .ok (ub, mb)) :
    firstPass tbl (a ++ b) = .ok (ua ++ ub, ma ++ mb) := by
  induction a generalizing ua ma with
  | nil =>
    unfold firstPass at ha
    cases ha
    simpa using hb
  | cons u a2 ih =>
    rw [List.cons_append]
    unfold firstPass at ha ⊢
    rcases hpu : processUnit tbl u with e | ⟨us, ms⟩ <;> rw [hpu] at ha <;>
      dsimp only at ha ⊢
    · cases ha
    · rcases hfa : firstPass tbl a2 with e2 | ⟨ru, rm⟩ <;> rw [hfa] at ha <;>
        dsimp only at ha
      · cases ha
      · cases ha
        rw [ih ru rm hfa]
        dsimp only
        simp [List.append_assoc]

/-- C10: a root unit absent from the stem table is never fatal: the merger
returns successfully, records the missing unit as a diagnostic, splices
the bare root text (marker stripped) in as a single unit, and processes
the surrounding units as usual. -/
theorem lookup_miss_falls_back (pre post : List Tok)
    (tbl : Tok → Option (List Tok)) (t : List Char)
    (upre mpre upost mpost : List Tok)
    (hpre : firstPass tbl pre = .ok (upre, mpre))
    (hpost : firstPass tbl post = .ok (upost, mpost))
    (hmiss : tbl ('_' :: t) = none) (ht : t ≠ []) :
    apply_bpe_to_stems (pre ++ ('_' :: t) :: post) tbl =
      .ok (addContinuation (upre ++ t :: upost),
           mpre ++ ('_' :: t) :: mpost) := by
  have hlen : ¬ (('_' :: t).length ≤ 1) := by
    cases t with
    | nil => exact absurd rfl ht
    | cons a s =>
      intro hc
      simp only [List.length_cons] at hc
      omega
  have hu : processUnit tbl ('_' :: t) = .ok ([t], [('_' :: t)]) := by
    unfold processUnit
    rw [if_neg hlen]
    dsimp only
    rw [if_pos rfl, hmiss]
  have hmid : firstPass tbl (('_' :: t) :: post) =
      .ok (t :: upost, ('_' :: t) :: mpost) := by
    unfold firstPass
    rw [hu]
    dsimp only
    rw [hpost]
    rfl
  have hall := firstPass_append tbl pre (('_' :: t) :: post) upre mpre
    (t :: upost) (('_' :: t) :: mpost) hpre hmid
  unfold apply_bpe_to_stems
  rw [hall]

/-- Witness for C10: the root known is missing from an empty table; the
merger still succeeds, uses the bare root as one unit and reports the
miss. -/
theorem lookup_miss_falls_back_witness :
    apply_bpe_to_stems
      [['⧺', 'u', 'n'], ['_', 'k', 'n', 'o', 'w', 'n'], ['+', 's']]
      (fun _ => none) =
      .ok ([['u', 'n', '⧺'], ['k', 'n', 'o', 'w', 'n'], ['⧺', 's']],
           [['_', 'k', 'n', 'o', 'w', 'n']]) :=
  lookup_miss_falls_back [['⧺', 'u', 'n']] [['+', 's']] (fun _ => none)
    ['k', 'n', 'o', 'w', 'n'] [['u', 'n', '⧺']] [] [['⧺', 's']] [] rfl rfl
    rfl (by decide)

end Morsel
